import Mathlib

/-!
Verification of the map_gen_golang generation core: the seeded Perlin
permutation table, the 2D gradient-noise evaluator, fractal layering (FBM),
the height-field assembler of `main.go`, and the Poisson-disk point sampler
of `poi/poi.go`.

Embedding conventions:
* Go `float64` arithmetic is embedded as exact rational arithmetic (`ℚ`);
  `math.Floor` is `Int.floor`, which is computable on `ℚ`.
* The transcendental library calls (`math.Sqrt`, `math.Cos`, `math.Sin`,
  `math.Pow`, `math.Hypot`) are handled pointwise where they occur:
  comparisons of the form `sqrt s < m` are embedded as the equivalent
  `s < m^2` (for `m ≥ 0`, `s ≥ 0`), grid indices `int(x / (m/√2))` are
  embedded by the exact integer identity `⌊x·√2/m⌋ = Nat.sqrt (2·x²) / m`,
  and quantities that are genuinely irrational-valued (the radial falloff
  term, the annulus offsets `round(d·cos θ), round(d·sin θ)`) become
  explicit parameters of the model, so every theorem quantifies over all
  values those computations could take.
* `math/rand` values consumed by the code are modelled as explicit streams
  of values satisfying the generator's documented range contract
  (`Intn n ∈ [0,n)` via `% n`, `Float64 ∈ [0,1)` as a hypothesis).
* The unbounded Go loops (`for {}` initial-point search, `for len(active) > 0`)
  are modelled with explicit fuel; a terminating run of the program is a
  fuel value for which the model returns `some`.
-/

namespace MapGen

/-! ### Perlin permutation table (`perlin.go`, `NewPerlin`) -/

/-- Structure `Perlin` holds the duplicated permutation table (512 entries), matching
`type Perlin struct { p []int }`. -/
structure Perlin where
  p : List ℕ
deriving DecidableEq

/-- Constructor `NewPerlin` builds the table from `base := r.Perm(256)` (the seeded
permutation delivered by `math/rand`, abstracted as an input list): the Go
loop sets `p[i] = base[i]` and `p[256+i] = base[i]` for `0 ≤ i < 256`,
which for a 256-element `base` is exactly the list `base ++ base`. -/
def NewPerlin (base : List ℕ) : Perlin :=
  ⟨base ++ base⟩

/-- Slice read `t[i]`; Go would panic out of range, but the bounds theorem
shows all indices used by the noise evaluator are in range, so the default
value is never relevant there. -/
def tableGet (t : List ℕ) (i : ℕ) : ℕ :=
  t.getD i 0

/-! ### Gradient noise (`perlin.go`, `fade`, `lerp`, `grad`, `Noise2DRaw`) -/

/-- The Perlin fade curve `6t^5 - 15t^4 + 10t^3`, written as in the source:
`t*t*t*(t*(t*6-15)+10)`. -/
def fade (t : ℚ) : ℚ :=
  t * t * t * (t * (t * 6 - 15) + 10)

/-- Linear interpolation `a + t*(b-a)`. -/
def lerp (t a b : ℚ) : ℚ :=
  a + t * (b - a)

/-- Function `grad` converts a hash into one of 4 diagonal gradients and returns the
dot product; `hash & 3` on a nonnegative value is `hash % 4`. -/
def grad (hash : ℕ) (x y : ℚ) : ℚ :=
  match hash % 4 with
  | 0 => x + y
  | 1 => -x + y
  | 2 => x - y
  | _ => -x - y

/-- Lattice index `int(math.Floor(xf)) & 255`: two's-complement AND of an
`int64` with `255` is the nonnegative residue mod `256`. -/
def latticeIdx (x freq : ℚ) : ℕ :=
  ((⌊x * freq⌋ % 256).toNat)

/-- Fractional cell offset `xf - math.Floor(xf)`. -/
def fracPart (x freq : ℚ) : ℚ :=
  x * freq - ⌊x * freq⌋

/-- Function `Noise2DRaw` evaluates 2D Perlin noise at world coordinates, following
the source line by line (lattice indices, fade weights, the four chained
table lookups, gradient dot products, bilinear interpolation). -/
def Noise2DRaw (p : Perlin) (x y freq : ℚ) : ℚ :=
  let xi := latticeIdx x freq
  let yi := latticeIdx y freq
  let xf := fracPart x freq
  let yf := fracPart y freq
  let u := fade xf
  let v := fade yf
  let aa := tableGet p.p (tableGet p.p xi + yi)
  let ab := tableGet p.p (tableGet p.p xi + yi + 1)
  let ba := tableGet p.p (tableGet p.p (xi + 1) + yi)
  let bb := tableGet p.p (tableGet p.p (xi + 1) + yi + 1)
  let x1 := lerp u (grad aa xf yf) (grad ba (xf - 1) yf)
  let x2 := lerp u (grad ab xf (yf - 1)) (grad bb (xf - 1) (yf - 1))
  lerp v x1 x2

/-- Function `Noise2D` normalizes raw noise to `[0,1]` via `(raw + 1) * 0.5`. -/
def Noise2D (p : Perlin) (x y freq : ℚ) : ℚ :=
  (Noise2DRaw p x y freq + 1) * (1 / 2)

/-! ### Fractal layering (`perlin.go`, `FBM2DRaw`) -/

/-- The FBM accumulation loop: starting from the given `amplitude` and
`frequency`, runs `octaves` iterations of
`total += Noise2DRaw(x,y,frequency) * amplitude; maxAmp += amplitude;
amplitude *= persistence; frequency *= lacunarity`, returning
`(total, maxAmp)`.  (The recursion adds the current octave's term to the
tail's sum, which over `ℚ` is the same total as the source's left-to-right
accumulation.) -/
def fbmAux (p : Perlin) (x y persistence lacunarity : ℚ) :
    ℕ → ℚ → ℚ → ℚ × ℚ
  | 0, _, _ => (0, 0)
  | n + 1, amplitude, frequency =>
    let rest := fbmAux p x y persistence lacunarity n
      (amplitude * persistence) (frequency * lacunarity)
    (Noise2DRaw p x y frequency * amplitude + rest.1, amplitude + rest.2)

/-- The cumulative maximum amplitude (`maxAmp`) accumulated by the FBM loop
for the given octave count, starting from amplitude 1. -/
def fbmMaxAmp (p : Perlin) (x y baseFreq : ℚ) (octaves : ℕ)
    (persistence lacunarity : ℚ) : ℚ :=
  (fbmAux p x y persistence lacunarity octaves 1 baseFreq).2

/-- Function `FBM2DRaw`: run the octave loop from amplitude 1 and `baseFreq`; if
`maxAmp == 0` return 0, else return `total / maxAmp`.  A non-positive Go
`octaves` runs the loop zero times, so `octaves : ℕ` loses no behavior. -/
def FBM2DRaw (p : Perlin) (x y baseFreq : ℚ) (octaves : ℕ)
    (persistence lacunarity : ℚ) : ℚ :=
  let r := fbmAux p x y persistence lacunarity octaves 1 baseFreq
  if r.2 = 0 then 0 else r.1 / r.2

/-- Function `NoiseFlow` returns a signed flow vector: raw noise at `(x,y)` and at
`(x+100, y+100)`. -/
def NoiseFlow (p : Perlin) (x y freq : ℚ) : ℚ × ℚ :=
  (Noise2DRaw p x y freq, Noise2DRaw p (x + 100) (y + 100) freq)

/-! ### Height-field assembler (`main.go`, `clamp01` and `updateImage`) -/

/-- Function `clamp01` from `main.go`. -/
def clamp01 (v : ℚ) : ℚ :=
  if v < 0 then 0 else if v > 1 then 1 else v

/-- The generation parameters read by `updateImage`.  `falloffTerm x y`
stands for `math.Pow(math.Hypot(x-centerX, y-centerY) / maxDist, falloff)
* falloffWeight`, a real-power of a square root that is irrational-valued
in general; keeping it as a per-coordinate parameter lets every theorem
quantify over all values that computation could produce. -/
structure GenConfig where
  scale : ℚ
  octaves : ℕ
  persistence : ℚ
  lacunarity : ℚ
  continentFreq : ℚ
  continentOctaves : ℕ
  continentWeight : ℚ
  falloffTerm : ℕ → ℕ → ℚ
  seaLevel : ℚ
  minDistance : ℕ
  flowScale : ℚ
  flowStrength : ℚ

/-- One pixel of `updateImage`: flow-warped local FBM, continental FBM at
fixed persistence `0.5` and lacunarity `2.0`, blend by `continentWeight`,
normalize via `(combinedRaw+1)*0.5`, subtract the radial falloff and clamp.
This is the value stored into `noiseMap[poi.Point{X:x, Y:y}]`. -/
def heightValue (p : Perlin) (cfg : GenConfig) (x y : ℕ) : ℚ :=
  let fl := NoiseFlow p x y cfg.flowScale
  let dx := fl.1 * cfg.flowStrength
  let dy := fl.2 * cfg.flowStrength
  let px := (x : ℚ) + dx
  let py := (y : ℚ) + dy
  let localRaw := FBM2DRaw p px py cfg.scale cfg.octaves cfg.persistence cfg.lacunarity
  let continentRaw := FBM2DRaw p x y cfg.continentFreq cfg.continentOctaves (1 / 2) 2
  let combinedRaw := localRaw * (1 - cfg.continentWeight) + continentRaw * cfg.continentWeight
  let combined := (combinedRaw + 1) * (1 / 2)
  clamp01 (combined - cfg.falloffTerm x y)

/-! ### Poisson-disk sampler (`poi/poi.go`, `PoissonDisk`) -/

/-- Structure `Point` with integer coordinates, as in `poi.go`. -/
structure Point where
  x : ℤ
  y : ℤ
deriving DecidableEq

/-- The Go zero value `Point{}`, which doubles as the "empty cell" marker
in the sampler's grid. -/
def zeroPoint : Point := ⟨0, 0⟩

/-- Grid cell index `int(float64(z) / cellSize)` with
`cellSize = minDistance / math.Sqrt2`, for the nonnegative coordinates the
sampler stores: exactly `⌊z·√2/m⌋ = ⌊⌊z·√2⌋ / m⌋ = Nat.sqrt (2·z²) / m`. -/
def gridIdx (m : ℕ) (z : ℤ) : ℤ :=
  (Nat.sqrt (2 * z.toNat ^ 2) / m : ℕ)

/-- Grid dimension `int(math.Ceil(float64(w) / cellSize))`: for `w, m ≥ 1`
the real `w·√2/m` is irrational, so its ceiling is `⌊w·√2/m⌋ + 1`. -/
def gridDim (m w : ℕ) : ℕ :=
  Nat.sqrt (2 * w ^ 2) / m + 1

/-- The sampler's spatial grid `[][]Point`, as a function from cell indices
to the stored point; unset cells hold the zero value `Point{}`. -/
def Grid : Type := ℤ → ℤ → Point

/-- Freshly allocated grid: every cell holds the zero value. -/
def emptyGrid : Grid := fun _ _ => zeroPoint

/-- Assignment `grid[cx][cy] = q`. -/
def gridSet (g : Grid) (cx cy : ℤ) (q : Point) : Grid :=
  fun a b => if a = cx ∧ b = cy then q else g a b

/-- One cell of the separation scan: skipped when out of the grid's range or
when it holds the zero value (`grid[x][y] != Point{}` — note an accepted
point equal to `Point{0,0}` is indistinguishable from an empty cell); the
occupant fails the candidate iff
`math.Sqrt((Δx)² + (Δy)²) < float64(minDistance)`, embedded by the exact
equivalence `sqrt s < m ↔ s < m²` for `m ≥ 0`. -/
def cellOk (m : ℕ) (gw gh : ℕ) (g : Grid) (np : Point) (cx cy : ℤ) : Bool :=
  if 0 ≤ cx ∧ cx < (gw : ℤ) ∧ 0 ≤ cy ∧ cy < (gh : ℤ) ∧ g cx cy ≠ zeroPoint then
    if (np.x - (g cx cy).x) ^ 2 + (np.y - (g cx cy).y) ^ 2 < (m : ℤ) ^ 2 then
      false
    else
      true
  else
    true

/-- The 5×5 window `gridX-2 ≤ x ≤ gridX+2`, `gridY-2 ≤ y ≤ gridY+2`. -/
def windowOffsets : List ℤ := [-2, -1, 0, 1, 2]

/-- The candidate survives the scan iff no in-range occupied cell of the
5×5 window holds a point within `minDistance`. -/
def neighborsOk (m gw gh : ℕ) (g : Grid) (np : Point) (cx cy : ℤ) : Bool :=
  windowOffsets.all fun dx =>
    windowOffsets.all fun dy => cellOk m gw gh g np (cx + dx) (cy + dy)

/-- The random draws consumed by one `PoissonDisk` call.  `start n` models
the n-th `(r.Intn(width), r.Intn(height))` pair of the initial search;
`idx n` models the `r.Intn(len(activePoints))` of the outer iteration at
fuel `n`; `off n i` models the i-th candidate offset
`(round(cos(angle)·dist), round(sin(angle)·dist))` of that iteration — the
rounded annulus offset is kept abstract because `cos`/`sin` are
transcendental, and since the candidate is
`(round(p.X + cosθ·d), round(p.Y + sinθ·d))` with integer `p`, adding the
rounded offset to `p` reproduces it exactly. -/
structure RandStreams where
  start : ℕ → ℕ × ℕ
  idx : ℕ → ℕ
  off : ℕ → ℕ → ℤ × ℤ

/-- The sampler's mutable state: accepted points, active points, grid. -/
structure PDState where
  points : List Point
  active : List Point
  grid : Grid

/-- The initial `for {}` search for a land start point, with fuel standing
in for the unbounded loop: draw `(r.Intn(width), r.Intn(height))`
(modelled as the stream value reduced `% w`, `% h`, the generator's range
contract) and stop once `noiseMap[startPoint] >= seaLevel+0.05`. -/
def findStart (w h : ℕ) (noise : Point → ℚ) (sea : ℚ)
    (startS : ℕ → ℕ × ℕ) : ℕ → Option Point
  | 0 => none
  | n + 1 =>
    let sp : Point := ⟨((startS n).1 % w : ℕ), ((startS n).2 % h : ℕ)⟩
    if sea + 1 / 20 ≤ noise sp then some sp
    else findStart w h noise sea startS n

/-- The inner `for i := 0; i < 30; i++` candidate loop around active point
`p`: each attempt builds `newPoint = p + offset`, rejects it unless it is
in bounds and on land (`noiseMap[newPoint] >= seaLevel+0.05`) and survives
the 5×5 separation scan; the first surviving candidate is returned. -/
def tryCandidates (m w h gw gh : ℕ) (noise : Point → ℚ) (sea : ℚ) (g : Grid)
    (p : Point) (offs : ℕ → ℤ × ℤ) (attempt : ℕ) : ℕ → Option Point
  | 0 => none
  | remaining + 1 =>
    let o := offs attempt
    let np : Point := ⟨p.x + o.1, p.y + o.2⟩
    if 0 ≤ np.x ∧ np.x < (w : ℤ) ∧ 0 ≤ np.y ∧ np.y < (h : ℤ) ∧
        sea + 1 / 20 ≤ noise np then
      if neighborsOk m gw gh g np (gridIdx m np.x) (gridIdx m np.y) then
        some np
      else
        tryCandidates m w h gw gh noise sea g p offs (attempt + 1) remaining
    else
      tryCandidates m w h gw gh noise sea g p offs (attempt + 1) remaining

/-- The outer `for len(activePoints) > 0` loop, with fuel: pick the active
point at `r.Intn(len(activePoints))`, run the 30-attempt candidate loop;
on success append the candidate to the accepted and active lists and store
it in its grid cell, otherwise remove the chosen active point.  `none`
means the fuel ran out before the loop terminated. -/
def pdLoop (m w h gw gh : ℕ) (noise : Point → ℚ) (sea : ℚ)
    (idxS : ℕ → ℕ) (offS : ℕ → ℕ → ℤ × ℤ) : ℕ → PDState → Option (List Point)
  | 0, _ => none
  | n + 1, st =>
    if st.active.isEmpty then some st.points
    else
      let i := idxS n % st.active.length
      let p := st.active.getD i zeroPoint
      match tryCandidates m w h gw gh noise sea st.grid p (offS n) 0 30 with
      | some np =>
        pdLoop m w h gw gh noise sea idxS offS n
          ⟨st.points ++ [np], st.active ++ [np],
            gridSet st.grid (gridIdx m np.x) (gridIdx m np.y) np⟩
      | none =>
        pdLoop m w h gw gh noise sea idxS offS n
          ⟨st.points, st.active.eraseIdx i, st.grid⟩

/-- Function `PoissonDisk` (the returned point count `len(points)` is omitted, being
determined by the list): find a land start point, seed the accepted and
active lists and the grid with it, then run the active loop. -/
def PoissonDisk (m w h : ℕ) (rs : RandStreams) (noise : Point → ℚ)
    (sea : ℚ) (fuelStart fuelLoop : ℕ) : Option (List Point) :=
  match findStart w h noise sea rs.start fuelStart with
  | none => none
  | some sp =>
    pdLoop m w h (gridDim m w) (gridDim m h) noise sea rs.idx rs.off fuelLoop
      ⟨[sp], [sp], gridSet emptyGrid (gridIdx m sp.x) (gridIdx m sp.y) sp⟩

/-! ### Full generation run (`main.go`, `updateImage`) -/

/-- The `noiseMap` handed to `PoissonDisk`: populated with `heightValue`
for every raster coordinate of the fixed 512×512 raster, zero (the Go map
default) elsewhere. -/
def toNoiseMap (hf : ℕ → ℕ → ℚ) : Point → ℚ :=
  fun q =>
    if 0 ≤ q.x ∧ q.x < 512 ∧ 0 ≤ q.y ∧ q.y < 512 then hf q.x.toNat q.y.toNat
    else 0

/-- One full generation run of `updateImage`: build the Perlin table from
the seed (`permOf` models the seeded `rand.Perm(256)`), fill the height
field, then run `PoissonDisk` with a fresh source seeded by the same seed
(`rng` models `rand.New(rand.NewSource(seed))`).  Returns the height field
and the sampler result. -/
def generateRun (permOf : ℤ → List ℕ) (rng : ℤ → RandStreams)
    (cfg : GenConfig) (seed : ℤ) (fuelStart fuelLoop : ℕ) :
    (ℕ → ℕ → ℚ) × Option (List Point) :=
  let p := NewPerlin (permOf seed)
  let hf := heightValue p cfg
  (hf, PoissonDisk cfg.minDistance 512 512 (rng seed) (toNoiseMap hf)
    cfg.seaLevel fuelStart fuelLoop)

/-- Candidate radius `dist := r.Float64()*(float64(minDistance)*2) +
float64(minDistance)` from the annulus sampling step of `PoissonDisk`,
with `u` the `Float64()` draw. -/
def candidateDist (minDist u : ℚ) : ℚ :=
  u * (minDist * 2) + minDist

/-! ### Helper lemmas -/

theorem clamp01_mem (v : ℚ) : 0 ≤ clamp01 v ∧ clamp01 v ≤ 1 := by
  unfold clamp01
  split_ifs <;> constructor <;> linarith

theorem sqrt_val {n k : ℕ} (h1 : k * k ≤ n) (h2 : n < (k + 1) * (k + 1)) :
    Nat.sqrt n = k :=
  (Nat.eq_sqrt.mpr ⟨h1, h2⟩).symm

theorem FBM2DRaw_def (p : Perlin) (x y baseFreq : ℚ) (octaves : ℕ)
    (pers lac : ℚ) :
    FBM2DRaw p x y baseFreq octaves pers lac =
      if fbmMaxAmp p x y baseFreq octaves pers lac = 0 then 0
      else (fbmAux p x y pers lac octaves 1 baseFreq).1 /
        fbmMaxAmp p x y baseFreq octaves pers lac := rfl

theorem fbmAux_unit_params (p : Perlin) (x y : ℚ) :
    ∀ (n : ℕ) (amp freq : ℚ),
      fbmAux p x y 1 1 n amp freq = (amp * n * Noise2DRaw p x y freq, amp * n) := by
  intro n
  induction n with
  | zero => intro amp freq; simp [fbmAux]
  | succ k ih =>
    intro amp freq
    simp only [fbmAux, mul_one, ih, Prod.mk.injEq]
    constructor <;> · push_cast; ring

theorem fbmAux_snd_nonneg (p : Perlin) (x y pers lac : ℚ) (hp : 0 ≤ pers) :
    ∀ (n : ℕ) (amp freq : ℚ), 0 ≤ amp → 0 ≤ (fbmAux p x y pers lac n amp freq).2 := by
  intro n
  induction n with
  | zero => intro amp freq _; simp [fbmAux]
  | succ k ih =>
    intro amp freq ha
    simp only [fbmAux]
    exact add_nonneg ha (ih (amp * pers) (freq * lac) (mul_nonneg ha hp))

/-! ### C2 — candidate radius law -/

/-- C2 counterexample: the claim says the radius is drawn from
`[minDistance, 2·minDistance)`, but the code computes
`u*(2·minDistance) + minDistance`; at `minDistance = 25` the legal draw
`u = 3/5` yields radius 55, which is not below `2·minDistance = 50`. -/
theorem candidateDist_cex :
    0 ≤ (3 / 5 : ℚ) ∧ (3 / 5 : ℚ) < 1 ∧ candidateDist 25 (3 / 5) = 55 ∧
      ¬ candidateDist 25 (3 / 5) < 2 * 25 := by
  norm_num [candidateDist]

/-- C2 (amended): for every `Float64()` draw `u ∈ [0,1)` and positive
`minDistance`, the candidate radius `u*(2·minDistance) + minDistance` lies
in `[minDistance, 3·minDistance)`. -/
theorem candidateDist_range (m u : ℚ) (hm : 0 < m) (h0 : 0 ≤ u) (h1 : u < 1) :
    m ≤ candidateDist m u ∧ candidateDist m u < 3 * m := by
  unfold candidateDist
  constructor <;> nlinarith

/-- C2 witness: the amended radius law at `minDistance = 25`, `u = 1/2`. -/
theorem candidateDist_range_witness :
    25 ≤ candidateDist 25 (1 / 2) ∧ candidateDist 25 (1 / 2) < 3 * 25 :=
  candidateDist_range 25 (1 / 2) (by norm_num) (by norm_num) (by norm_num)

/-! ### C5 — height-field range invariant -/

/-- C5: every stored height-field value `clamp01(combined - falloff)` lies
in `[0,1]`, for every permutation table, configuration and raster
coordinate. -/
theorem heightValue_in_unit_interval (p : Perlin) (cfg : GenConfig) (x y : ℕ) :
    0 ≤ heightValue p cfg x y ∧ heightValue p cfg x y ≤ 1 :=
  clamp01_mem _

/-! ### C8 — FBM normalization at persistence = lacunarity = 1 -/

/-- C8: with persistence and lacunarity both 1, the FBM loop accumulates
`octaves` identical terms and `maxAmp = octaves`, so after normalization
`FBM2DRaw` coincides with the single-octave raw noise whenever
`octaves ≥ 1`. -/
theorem fbm_unit_persistence_eq_noise (p : Perlin) (x y baseFreq : ℚ)
    (octaves : ℕ) (hoct : 1 ≤ octaves) :
    FBM2DRaw p x y baseFreq octaves 1 1 = Noise2DRaw p x y baseFreq := by
  have hne : ((octaves : ℚ)) ≠ 0 := Nat.cast_ne_zero.mpr (by omega)
  rw [FBM2DRaw_def]
  unfold fbmMaxAmp
  rw [fbmAux_unit_params]
  simp only [one_mul]
  rw [if_neg hne]
  exact mul_div_cancel_left₀ _ hne

/-- C8 witness: three octaves at unit persistence and lacunarity give the
single-octave value. -/
theorem fbm_unit_persistence_eq_noise_witness :
    FBM2DRaw ⟨[]⟩ 0 0 1 3 1 1 = Noise2DRaw ⟨[]⟩ 0 0 1 :=
  fbm_unit_persistence_eq_noise ⟨[]⟩ 0 0 1 3 (by norm_num)

/-! ### C9 — FBM division guard -/

/-- C9 counterexample: at `octaves = 2` and `persistence = -1` (a value no
validation in the code excludes) the cumulative maximum amplitude is
`1 + (-1) = 0`, not `≥ 1`, and the "unreachable" zero-amplitude guard is
taken, so `FBM2DRaw` returns 0 by the guard. -/
theorem fbm_maxAmp_cex :
    (1 : ℕ) ≤ 2 ∧ fbmMaxAmp ⟨[]⟩ 0 0 1 2 (-1) 1 = 0 ∧
      ¬ (1 : ℚ) ≤ fbmMaxAmp ⟨[]⟩ 0 0 1 2 (-1) 1 ∧
      FBM2DRaw ⟨[]⟩ 0 0 1 2 (-1) 1 = 0 := by
  have h : fbmMaxAmp ⟨[]⟩ 0 0 1 2 (-1) 1 = 0 := by
    simp [fbmMaxAmp, fbmAux]
  refine ⟨by norm_num, h, by rw [h]; norm_num, ?_⟩
  rw [FBM2DRaw_def, if_pos h]

/-- C9 (amended): `FBM2DRaw` returns 0 whenever the accumulated `maxAmp`
is zero instead of dividing, and under the precondition `octaves ≥ 1`
*and nonnegative persistence* the cumulative maximum amplitude is `≥ 1`
(the first octave contributes amplitude 1), making the guard branch
unreachable on that domain. -/
theorem fbm_guard_and_maxAmp_bound :
    (∀ (p : Perlin) (x y baseFreq : ℚ) (octaves : ℕ) (pers lac : ℚ),
      fbmMaxAmp p x y baseFreq octaves pers lac = 0 →
        FBM2DRaw p x y baseFreq octaves pers lac = 0) ∧
    (∀ (p : Perlin) (x y baseFreq : ℚ) (octaves : ℕ) (pers lac : ℚ),
      1 ≤ octaves → 0 ≤ pers →
        1 ≤ fbmMaxAmp p x y baseFreq octaves pers lac) := by
  constructor
  · intro p x y baseFreq octaves pers lac hz
    rw [FBM2DRaw_def, if_pos hz]
  · intro p x y baseFreq octaves pers lac hoct hp
    obtain ⟨k, rfl⟩ : ∃ k, octaves = k + 1 := ⟨octaves - 1, by omega⟩
    unfold fbmMaxAmp
    simp only [fbmAux]
    have := fbmAux_snd_nonneg p x y pers lac hp k (1 * pers) (baseFreq * lac)
      (by linarith)
    linarith

/-- C9 witness: both conjuncts at concrete inputs — the guard at
`octaves = 0` (where `maxAmp = 0`), the amplitude bound at `octaves = 1`,
`persistence = 0`. -/
theorem fbm_guard_and_maxAmp_bound_witness :
    FBM2DRaw ⟨[]⟩ 0 0 1 0 (1 / 2) 2 = 0 ∧ 1 ≤ fbmMaxAmp ⟨[]⟩ 0 0 1 1 0 2 :=
  ⟨fbm_guard_and_maxAmp_bound.1 ⟨[]⟩ 0 0 1 0 (1 / 2) 2 (by simp [fbmMaxAmp, fbmAux]),
    fbm_guard_and_maxAmp_bound.2 ⟨[]⟩ 0 0 1 1 0 2 (by norm_num) (by norm_num)⟩

/-! ### C7 — permutation-table structure -/

/-- C7: for any seed, with `base` the 256-element permutation the seeded
generator returns, the table built by `NewPerlin` has 512 entries, its
first 256 entries are that permutation of `0..255`, and entry `256+i`
equals entry `i` for every `i < 256`. -/
theorem newPerlin_table_spec (base : List ℕ) (hb : base.Perm (List.range 256)) :
    (NewPerlin base).p.length = 512 ∧
    ((NewPerlin base).p.take 256).Perm (List.range 256) ∧
    ∀ i < 256, (NewPerlin base).p.getD (256 + i) 0 = (NewPerlin base).p.getD i 0 := by
  have hlen : base.length = 256 := by
    simpa using hb.length_eq
  have hP : (NewPerlin base).p = base ++ base := rfl
  refine ⟨by simp [hP, hlen], ?_, ?_⟩
  · rw [hP, List.take_left' hlen]
    exact hb
  · intro i hi
    rw [hP, List.getD_append_right base base 0 (256 + i) (by omega),
      List.getD_append base base 0 i (by omega)]
    rw [hlen, show 256 + i - 256 = i from by omega]

/-- C7 witness: the table specification holds at the identity permutation. -/
theorem newPerlin_table_spec_witness :
    (NewPerlin (List.range 256)).p.length = 512 ∧
    ((NewPerlin (List.range 256)).p.take 256).Perm (List.range 256) ∧
    ∀ i < 256, (NewPerlin (List.range 256)).p.getD (256 + i) 0 =
      (NewPerlin (List.range 256)).p.getD i 0 :=
  newPerlin_table_spec (List.range 256) (List.Perm.refl _)

/-! ### C10 — noise lookups stay in bounds -/

theorem getD_lt_256 (l : List ℕ) (hv : ∀ v ∈ l, v < 256) (i : ℕ) :
    l.getD i 0 < 256 := by
  rcases lt_or_le i l.length with h | h
  · rw [List.getD_eq_getElem l 0 h]
    exact hv _ (List.getElem_mem h)
  · rw [List.getD_eq_default l 0 h]
    norm_num

theorem latticeIdx_le_255 (x freq : ℚ) : latticeIdx x freq ≤ 255 := by
  unfold latticeIdx
  have h1 : (0 : ℤ) ≤ ⌊x * freq⌋ % 256 := Int.emod_nonneg _ (by norm_num)
  have h2 : ⌊x * freq⌋ % 256 < 256 := Int.emod_lt_of_pos _ (by norm_num)
  omega

/-- C10: for every input coordinate pair and frequency, the lattice indices
are at most 255, every table entry is below 256, and hence all the chained
lookup indices used by `Noise2DRaw` — `xi`, `xi+1`, `p[xi(+1)] + yi` and
`p[xi(+1)] + yi + 1` — are below the 512-entry table length built by
`NewPerlin`. -/
theorem noise_lookup_indices_bounded (base : List ℕ) (hl : base.length = 256)
    (hv : ∀ v ∈ base, v < 256) (x y freq : ℚ) :
    (NewPerlin base).p.length = 512 ∧
    latticeIdx x freq < 512 ∧ latticeIdx x freq + 1 < 512 ∧
    tableGet (NewPerlin base).p (latticeIdx x freq) + latticeIdx y freq < 512 ∧
    tableGet (NewPerlin base).p (latticeIdx x freq) + latticeIdx y freq + 1 < 512 ∧
    tableGet (NewPerlin base).p (latticeIdx x freq + 1) + latticeIdx y freq < 512 ∧
    tableGet (NewPerlin base).p (latticeIdx x freq + 1) + latticeIdx y freq + 1 < 512 := by
  have hP : (NewPerlin base).p = base ++ base := rfl
  have hv' : ∀ v ∈ (NewPerlin base).p, v < 256 := by
    intro v hvmem
    rw [hP] at hvmem
    rcases List.mem_append.mp hvmem with h | h <;> exact hv v h
  have hx := latticeIdx_le_255 x freq
  have hy := latticeIdx_le_255 y freq
  have g1 := getD_lt_256 (NewPerlin base).p hv' (latticeIdx x freq)
  have g2 := getD_lt_256 (NewPerlin base).p hv' (latticeIdx x freq + 1)
  rw [tableGet, tableGet]
  refine ⟨by simp [hP, hl], by omega, by omega, by omega, by omega,
    by omega, by omega⟩

/-- C10 witness: the bounds at the identity permutation and coordinates
`x = y = 0`, `freq = 1`. -/
theorem noise_lookup_indices_bounded_witness :
    (NewPerlin (List.range 256)).p.length = 512 ∧
    latticeIdx 0 1 < 512 ∧ latticeIdx 0 1 + 1 < 512 ∧
    tableGet (NewPerlin (List.range 256)).p (latticeIdx 0 1) + latticeIdx 0 1 < 512 ∧
    tableGet (NewPerlin (List.range 256)).p (latticeIdx 0 1) + latticeIdx 0 1 + 1 < 512 ∧
    tableGet (NewPerlin (List.range 256)).p (latticeIdx 0 1 + 1) + latticeIdx 0 1 < 512 ∧
    tableGet (NewPerlin (List.range 256)).p (latticeIdx 0 1 + 1) + latticeIdx 0 1 + 1 < 512 :=
  noise_lookup_indices_bounded (List.range 256) (by simp)
    (fun v hvmem => List.mem_range.mp hvmem) 0 0 1

/-! ### C3 — the initial land search never terminates on all-ocean input -/

/-- C3: the code has no bounded retry count and no `ExhaustedSearchError`;
when every coordinate fails the land predicate the initial `for {}` search
runs forever — in the fuel model, it fails to produce a start point for
every fuel bound, whatever coordinates the generator draws. -/
theorem findStart_allOcean_diverges (w hh : ℕ) (noise : Point → ℚ) (sea : ℚ)
    (startS : ℕ → ℕ × ℕ) (hocean : ∀ q : Point, noise q < sea + 1 / 20) :
    ∀ fuel, findStart w hh noise sea startS fuel = none := by
  intro fuel
  induction fuel with
  | zero => rfl
  | succ n ih =>
    simp only [findStart]
    rw [if_neg (not_le.mpr (hocean _))]
    exact ih

/-- C3 witness: an all-ocean height field at `seaLevel = 0.45` defeats the
search at every fuel bound (shown here for fuel 7). -/
theorem findStart_allOcean_diverges_witness :
    findStart 512 512 (fun _ => 0) (9 / 20) (fun _ => (0, 0)) 7 = none :=
  findStart_allOcean_diverges 512 512 (fun _ => 0) (9 / 20) (fun _ => (0, 0))
    (fun q => by norm_num) 7

/-! ### C4 — determinism in seed and configuration -/

/-- C4: with the pseudo-random generators modelled as functions of the seed
(`permOf` for the table builder's `rand.Perm(256)`, `rng` for the sampler's
`rand.New(rand.NewSource(seed))`), a full generation run is a pure function
of the seed and the configuration: two runs with equal seed and equal
configuration return the same height field at every raster coordinate and
the same accepted point list in the same order.  (No other input reaches
the pipeline: the noise map is only ever indexed, never iterated, so Go's
randomized map iteration order cannot influence the output.) -/
theorem generateRun_deterministic (permOf : ℤ → List ℕ)
    (rng : ℤ → RandStreams) (cfg cfg' : GenConfig) (seed seed' : ℤ)
    (fuelStart fuelLoop : ℕ) (hs : seed = seed') (hc : cfg = cfg') :
    generateRun permOf rng cfg seed fuelStart fuelLoop =
      generateRun permOf rng cfg' seed' fuelStart fuelLoop := by
  rw [hs, hc]

/-- C4 witness: the determinism theorem applied at seed 12345 and the
reference default configuration of `main.go` (falloff term abstracted). -/
theorem generateRun_deterministic_witness :
    generateRun (fun _ => List.range 256)
      (fun _ => ⟨fun _ => (0, 0), fun _ => 0, fun _ _ => (1, 1)⟩)
      ⟨3 / 500, 5, 1 / 2, 2, 1 / 250, 3, 3 / 5, fun _ _ => 0, 9 / 20, 25, 1 / 500, 15⟩
      12345 1 1 =
    generateRun (fun _ => List.range 256)
      (fun _ => ⟨fun _ => (0, 0), fun _ => 0, fun _ _ => (1, 1)⟩)
      ⟨3 / 500, 5, 1 / 2, 2, 1 / 250, 3, 3 / 5, fun _ _ => 0, 9 / 20, 25, 1 / 500, 15⟩
      12345 1 1 :=
  generateRun_deterministic (fun _ => List.range 256)
    (fun _ => ⟨fun _ => (0, 0), fun _ => 0, fun _ _ => (1, 1)⟩)
    ⟨3 / 500, 5, 1 / 2, 2, 1 / 250, 3, 3 / 5, fun _ _ => 0, 9 / 20, 25, 1 / 500, 15⟩
    ⟨3 / 500, 5, 1 / 2, 2, 1 / 250, 3, 3 / 5, fun _ _ => 0, 9 / 20, 25, 1 / 500, 15⟩
    12345 12345 1 1 rfl rfl

/-! ### C6 — every accepted point is on land -/

theorem tryCandidates_land (m w hh gw gh : ℕ) (noise : Point → ℚ) (sea : ℚ)
    (g : Grid) (p : Point) (offs : ℕ → ℤ × ℤ) :
    ∀ (r a : ℕ) (np : Point),
      tryCandidates m w hh gw gh noise sea g p offs a r = some np →
      sea + 1 / 20 ≤ noise np := by
  intro r
  induction r with
  | zero => intro a np hsome; exact absurd hsome (by simp [tryCandidates])
  | succ k ih =>
    intro a np hsome
    simp only [tryCandidates] at hsome
    split_ifs at hsome with hcond hnb
    · obtain rfl : np = ⟨p.x + (offs a).1, p.y + (offs a).2⟩ :=
        (Option.some.injEq _ _ ▸ hsome).symm
      exact hcond.2.2.2.2
    · exact ih (a + 1) np hsome
    · exact ih (a + 1) np hsome

theorem pdLoop_land (m w hh gw gh : ℕ) (noise : Point → ℚ) (sea : ℚ)
    (idxS : ℕ → ℕ) (offS : ℕ → ℕ → ℤ × ℤ) :
    ∀ (fuel : ℕ) (st : PDState) (pts : List Point),
      pdLoop m w hh gw gh noise sea idxS offS fuel st = some pts →
      (∀ q ∈ st.points, sea + 1 / 20 ≤ noise q) →
      ∀ q ∈ pts, sea + 1 / 20 ≤ noise q := by
  intro fuel
  induction fuel with
  | zero => intro st pts hrun; exact absurd hrun (by simp [pdLoop])
  | succ n ih =>
    intro st pts hrun hinv
    simp only [pdLoop] at hrun
    split_ifs at hrun with hempty
    · obtain rfl : st.points = pts := Option.some.injEq _ _ ▸ hrun
      exact hinv
    · rcases hcand : tryCandidates m w hh gw gh noise sea st.grid
          (st.active.getD (idxS n % st.active.length) zeroPoint) (offS n) 0 30 with
        _ | np
      · rw [hcand] at hrun
        exact ih _ pts hrun hinv
      · rw [hcand] at hrun
        refine ih _ pts hrun ?_
        intro q hq
        rcases List.mem_append.mp hq with hq | hq
        · exact hinv q hq
        · rw [List.mem_singleton.mp hq]
          exact tryCandidates_land m w hh gw gh noise sea st.grid _ (offS n)
            30 0 np hcand

theorem findStart_land (w hh : ℕ) (noise : Point → ℚ) (sea : ℚ)
    (startS : ℕ → ℕ × ℕ) :
    ∀ (fuel : ℕ) (sp : Point),
      findStart w hh noise sea startS fuel = some sp →
      sea + 1 / 20 ≤ noise sp := by
  intro fuel
  induction fuel with
  | zero => intro sp hsome; exact absurd hsome (by simp [findStart])
  | succ n ih =>
    intro sp hsome
    simp only [findStart] at hsome
    split_ifs at hsome with hland
    · obtain rfl : sp = _ := (Option.some.injEq _ _ ▸ hsome).symm
      exact hland
    · exact ih sp hsome

/-- C6: every point in the accepted list of a terminating `PoissonDisk`
run satisfies the land predicate `noiseMap[p] ≥ seaLevel + 0.05` — the
start point because the initial search only stops on land, every later
point because candidates are bounds- and land-checked before acceptance. -/
theorem poisson_points_on_land (m w hh : ℕ) (rs : RandStreams)
    (noise : Point → ℚ) (sea : ℚ) (fuelStart fuelLoop : ℕ) (pts : List Point)
    (hrun : PoissonDisk m w hh rs noise sea fuelStart fuelLoop = some pts) :
    ∀ q ∈ pts, sea + 1 / 20 ≤ noise q := by
  unfold PoissonDisk at hrun
  rcases hfs : findStart w hh noise sea rs.start fuelStart with _ | sp
  · rw [hfs] at hrun
    exact absurd hrun (by simp)
  · rw [hfs] at hrun
    refine pdLoop_land m w hh (gridDim m w) (gridDim m hh) noise sea rs.idx
      rs.off fuelLoop _ pts hrun ?_
    intro q hq
    rw [List.mem_singleton.mp hq]
    exact findStart_land w hh noise sea rs.start fuelStart sp hfs

/-- C6 witness: a concrete terminating run over a flat all-land 4×4 map
with `minDistance = 1` accepts exactly the start point `(0,0)`, which
satisfies the land predicate. -/
theorem poisson_points_on_land_witness :
    (1 : ℚ) / 2 + 1 / 20 ≤ 1 :=
  poisson_points_on_land 1 4 4 ⟨fun _ => (0, 0), fun _ => 0, fun _ _ => (100, 100)⟩
    (fun _ => 1) (1 / 2) 1 2 [⟨0, 0⟩]
    (by norm_num [PoissonDisk, findStart, pdLoop, tryCandidates, neighborsOk,
      cellOk, windowOffsets, gridIdx, gridDim, gridSet, emptyGrid, zeroPoint,
      sqrt_val (show 5 * 5 ≤ 32 by norm_num) (show 32 < 6 * 6 by norm_num)])
    ⟨0, 0⟩ (by simp)

/-! ### C1 — the zero-value grid sentinel breaks the separation invariant -/

theorem tryCandidates_none_of_reject (m w hh gw gh : ℕ) (noise : Point → ℚ)
    (sea : ℚ) (g : Grid) (p : Point) (offs : ℕ → ℤ × ℤ)
    (hrej : ∀ i : ℕ, ¬ (0 ≤ p.x + (offs i).1 ∧ p.x + (offs i).1 < (w : ℤ) ∧
      0 ≤ p.y + (offs i).2 ∧ p.y + (offs i).2 < (hh : ℤ) ∧
      sea + 1 / 20 ≤ noise ⟨p.x + (offs i).1, p.y + (offs i).2⟩)) :
    ∀ (r a : ℕ), tryCandidates m w hh gw gh noise sea g p offs a r = none := by
  intro r
  induction r with
  | zero => intro a; rfl
  | succ k ih =>
    intro a
    simp only [tryCandidates]
    rw [if_neg (hrej a)]
    exact ih (a + 1)

/-- C1: a concrete terminating run violating the separation guarantee.  On
a flat all-land 8×8 map with `minDistance = 3` the generator first draws
start point `(0,0)` — the Go zero value `Point{}` — and then, from angle
`θ = atan2(1.8, 2.4)` and radius exactly 3 (draw `u = 0`, radius in
`[3,9)`), the candidate `(round(3·cosθ), round(3·sinθ)) = (round(2.4),
round(1.8)) = (2,2)`.  The 5×5 scan finds every cell equal to `Point{}`
— including the cell actually holding the accepted point `(0,0)` — so
`(2,2)` is accepted, yet its distance to `(0,0)` is `√8 ≈ 2.83 < 3`
(squared: `8 < 9`), far beyond floating rounding tolerance. -/
theorem poisson_separation_violated :
    PoissonDisk 3 8 8
      ⟨fun _ => (8, 8), fun _ => 0,
        fun n _ => if n = 3 then ((2 : ℤ), (2 : ℤ)) else (100, 100)⟩
      (fun _ => 1) 0 1 4 = some [⟨0, 0⟩, ⟨2, 2⟩] ∧
    (⟨0, 0⟩ : Point) ≠ ⟨2, 2⟩ ∧
    ((2 : ℤ) - 0) ^ 2 + ((2 : ℤ) - 0) ^ 2 < 3 ^ 2 := by
  have hsq8 : Nat.sqrt 8 = 2 := sqrt_val (by norm_num) (by norm_num)
  have hsq128 : Nat.sqrt 128 = 11 := sqrt_val (by norm_num) (by norm_num)
  have hgd : gridDim 3 8 = 4 := by rw [gridDim]; norm_num [hsq128]
  have hgi0 : gridIdx 3 0 = 0 := by simp [gridIdx]
  have hgi2 : gridIdx 3 2 = 0 := by
    rw [gridIdx, show ((2 : ℤ).toNat) = 2 from rfl]
    norm_num [hsq8]
  have hfs : findStart 8 8 (fun _ => 1) 0 (fun _ => (8, 8)) 1 = some ⟨0, 0⟩ := by
    norm_num [findStart]
  have hg0 : ∀ a b : ℤ, gridSet emptyGrid 0 0 ⟨0, 0⟩ a b = zeroPoint := by
    intro a b
    unfold gridSet emptyGrid zeroPoint
    split_ifs <;> rfl
  have hcell : ∀ (np : Point) (cx cy : ℤ),
      cellOk 3 4 4 (gridSet emptyGrid 0 0 ⟨0, 0⟩) np cx cy = true := by
    intro np cx cy
    unfold cellOk
    rw [hg0 cx cy]
    simp
  have hnb : neighborsOk 3 4 4 (gridSet emptyGrid 0 0 ⟨0, 0⟩) ⟨2, 2⟩ 0 0 = true := by
    unfold neighborsOk windowOffsets
    simp [hcell]
  have haccept :
      tryCandidates 3 8 8 4 4 (fun _ => 1) 0 (gridSet emptyGrid 0 0 ⟨0, 0⟩)
        ⟨0, 0⟩ (fun _ => ((2 : ℤ), (2 : ℤ))) 0 30 = some ⟨2, 2⟩ := by
    simp only [tryCandidates]
    rw [if_pos (by norm_num)]
    norm_num [hgi2, hnb]
  have hrej1 : ∀ (r a : ℕ),
      tryCandidates 3 8 8 4 4 (fun _ => 1) 0
        (gridSet (gridSet emptyGrid 0 0 ⟨0, 0⟩) 0 0 ⟨2, 2⟩) ⟨0, 0⟩
        (fun _ => ((100 : ℤ), (100 : ℤ))) a r = none :=
    tryCandidates_none_of_reject 3 8 8 4 4 (fun _ => 1) 0 _ _ _
      (by intro i; norm_num)
  have hrej2 : ∀ (r a : ℕ),
      tryCandidates 3 8 8 4 4 (fun _ => 1) 0
        (gridSet (gridSet emptyGrid 0 0 ⟨0, 0⟩) 0 0 ⟨2, 2⟩) ⟨2, 2⟩
        (fun _ => ((100 : ℤ), (100 : ℤ))) a r = none :=
    tryCandidates_none_of_reject 3 8 8 4 4 (fun _ => 1) 0 _ _ _
      (by intro i; norm_num)
  refine ⟨?_, by decide, by decide⟩
  norm_num [PoissonDisk, pdLoop, hfs, hgd, hgi0, hgi2, haccept, hrej1, hrej2,
    List.eraseIdx]

end MapGen
